import Mathlib

/-!
Shallow embedding of `src/client/hmac.go` from yangwei999/robot-github-lib.

Go byte slices and (byte-)strings are modelled as `List Nat` with each
element a byte value; machine 32-bit arithmetic inside SHA-1 is `Nat`
arithmetic reduced `% 2 ^ 32` at every step.  The standard-library
collaborators that `hmac.go` calls are embedded faithfully:
`crypto/sha1` and `crypto/hmac` are implemented in full,
`encoding/hex` in full, and `encoding/json` / `sigs.k8s.io/yaml`
as a JSON parser (the JSON subset of YAML) for the two concrete
target shapes the file decodes into.
-/

namespace RobotGithub

/-- Byte strings: Go `[]byte` / `string` as a list of byte values. -/
abbrev Bytes := List Nat

/-- Bytes of an ASCII string literal (all literals in the source are ASCII). -/
def asciiBytes (s : String) : Bytes := s.data.map Char.toNat

/-! ### crypto/sha1 (collaborator of PayloadSignature / ValidatePayload) -/

/-- Left-rotation of a 32-bit word, as `Nat` arithmetic mod `2 ^ 32`. -/
def rotl (n x : Nat) : Nat := (x * 2 ^ n + x / 2 ^ (32 - n)) % 4294967296

/-- SHA-1 round constant for round `i`. -/
def sha1K (i : Nat) : Nat :=
  if i < 20 then 1518500249
  else if i < 40 then 1859775393
  else if i < 60 then 2400959708
  else 3395469782

/-- SHA-1 round function for round `i`. -/
def sha1F (i b c d : Nat) : Nat :=
  if i < 20 then Nat.lor (Nat.land b c) (Nat.land (Nat.xor b 4294967295) d)
  else if i < 40 then Nat.xor (Nat.xor b c) d
  else if i < 60 then Nat.lor (Nat.lor (Nat.land b c) (Nat.land b d)) (Nat.land c d)
  else Nat.xor (Nat.xor b c) d

/-- Big-endian bytes of a 32-bit word; every byte is `< 256` by the `% 256`. -/
def wordBytes (w : Nat) : Bytes :=
  [w / 16777216 % 256, w / 65536 % 256, w / 256 % 256, w % 256]

/-- Big-endian 8-byte encoding of the 64-bit message length. -/
def beBytes8 (n : Nat) : Bytes :=
  [n / 2 ^ 56 % 256, n / 2 ^ 48 % 256, n / 2 ^ 40 % 256, n / 2 ^ 32 % 256,
   n / 2 ^ 24 % 256, n / 2 ^ 16 % 256, n / 2 ^ 8 % 256, n % 256]

/-- Number of zero padding bytes between the `0x80` byte and the length field. -/
def sha1PadZeros (len : Nat) : Nat := (119 - len % 64) % 64

/-- SHA-1 message padding to a multiple of 64 bytes. -/
def sha1Pad (msg : Bytes) : Bytes :=
  msg ++ 128 :: (List.replicate (sha1PadZeros msg.length) 0 ++ beBytes8 (msg.length * 8))

/-- Group a padded message into big-endian 32-bit words. -/
def words16 : Bytes → List Nat
  | b0 :: b1 :: b2 :: b3 :: r => (((b0 * 256 + b1) * 256 + b2) * 256 + b3) :: words16 r
  | _ => []

/-- Split into 64-byte chunks; the fuel is the list length, enough because
each step removes at least one element. -/
def chunks64Aux : Nat → Bytes → List Bytes
  | 0, _ => []
  | _, [] => []
  | f + 1, l => l.take 64 :: chunks64Aux f (l.drop 64)

/-- Extend the 16 message words with `k` further schedule words. -/
def expandW (w : Array Nat) : Nat → Array Nat
  | 0 => w
  | k + 1 =>
    let i := w.size
    expandW (w.push (rotl 1 (Nat.xor (Nat.xor (w.getD (i - 3) 0) (w.getD (i - 8) 0))
      (Nat.xor (w.getD (i - 14) 0) (w.getD (i - 16) 0))))) k

/-- One SHA-1 round on the five-word state. -/
def sha1Step (w : Array Nat) (st : Nat × Nat × Nat × Nat × Nat) (i : Nat) :
    Nat × Nat × Nat × Nat × Nat :=
  match st with
  | (a, b, c, d, e) =>
    ((rotl 5 a + sha1F i b c d + e + sha1K i + w.getD i 0) % 4294967296,
     a, rotl 30 b, c, d)

/-- Compress one 64-byte chunk into the running hash state. -/
def sha1Compress (h : Nat × Nat × Nat × Nat × Nat) (chunk : Bytes) :
    Nat × Nat × Nat × Nat × Nat :=
  let w := expandW (words16 chunk).toArray 64
  match h, (List.range 80).foldl (sha1Step w) h with
  | (h0, h1, h2, h3, h4), (a, b, c, d, e) =>
    ((h0 + a) % 4294967296, (h1 + b) % 4294967296, (h2 + c) % 4294967296,
     (h3 + d) % 4294967296, (h4 + e) % 4294967296)

/-- SHA-1 digest (20 bytes) of a byte string. -/
def sha1 (msg : Bytes) : Bytes :=
  let padded := sha1Pad msg
  let h := (chunks64Aux padded.length padded).foldl sha1Compress
      (1732584193, 4023233417, 2562383102, 271733878, 3285377520)
  wordBytes h.1 ++ wordBytes h.2.1 ++ wordBytes h.2.2.1 ++
    wordBytes h.2.2.2.1 ++ wordBytes h.2.2.2.2

/-! ### crypto/hmac (collaborator) -/

/-- HMAC-SHA1 with Go's `crypto/hmac` (block size 64: long keys are hashed,
short keys zero-padded, inner pad `0x36`, outer pad `0x5c`). -/
def hmacSha1 (key msg : Bytes) : Bytes :=
  let k0 := if 64 < key.length then sha1 key else key
  let kp := k0 ++ List.replicate (64 - k0.length) 0
  sha1 ((kp.map (fun b => Nat.xor b 92)) ++ sha1 ((kp.map (fun b => Nat.xor b 54)) ++ msg))

/-! ### encoding/hex (collaborator) -/

/-- Value of one hex digit byte; `hex.DecodeString` accepts both cases. -/
def hexDigitVal (c : Nat) : Option Nat :=
  if 48 ≤ c ∧ c ≤ 57 then some (c - 48)
  else if 97 ≤ c ∧ c ≤ 102 then some (c - 87)
  else if 65 ≤ c ∧ c ≤ 70 then some (c - 55)
  else none

/-- `hex.DecodeString`: fails on odd length or a non-hex digit. -/
def hexDecode : Bytes → Option Bytes
  | [] => some []
  | [_] => none
  | a :: b :: rest =>
    match hexDigitVal a, hexDigitVal b, hexDecode rest with
    | some x, some y, some r => some ((16 * x + y) :: r)
    | _, _, _ => none

/-- Lowercase hex digit byte for a value `< 16`. -/
def hexChar (n : Nat) : Nat := if n < 10 then 48 + n else 87 + n

/-- `hex.EncodeToString` (lowercase). -/
def hexEncode : Bytes → Bytes
  | [] => []
  | b :: r => hexChar (b / 16) :: hexChar (b % 16) :: hexEncode r

/-! ### encoding/json (collaborator): JSON document syntax -/

/-- A parsed JSON value.  Number text is kept raw: neither decoded Go type
reads a numeric value. -/
inductive JVal where
  | jnull
  | jbool (b : Bool)
  | jnum (s : Bytes)
  | jstr (s : Bytes)
  | jarr (xs : List JVal)
  | jobj (fs : List (Bytes × JVal))
deriving Repr

def isJsonWs (c : Nat) : Bool := c = 32 ∨ c = 9 ∨ c = 10 ∨ c = 13

def skipWs : Bytes → Bytes
  | [] => []
  | c :: r => if isJsonWs c then skipWs r else c :: r

/-- UTF-8 encoding of a code point, for `\u` escapes. -/
def utf8Encode (c : Nat) : Bytes :=
  if c < 128 then [c]
  else if c < 2048 then [192 + c / 64, 128 + c % 64]
  else if c < 65536 then [224 + c / 4096, 128 + c / 64 % 64, 128 + c % 64]
  else [240 + c / 262144, 128 + c / 4096 % 64, 128 + c / 64 % 64, 128 + c % 64]

/-- Four hex digits of a `\u` escape. -/
def hex4 : Bytes → Option (Nat × Bytes)
  | a :: b :: c :: d :: r =>
    match hexDigitVal a, hexDigitVal b, hexDigitVal c, hexDigitVal d with
    | some x, some y, some z, some w => some ((((x * 16 + y) * 16 + z) * 16 + w), r)
    | _, _, _, _ => none
  | _ => none

/-- String body after the opening quote: contents and the rest after the
closing quote.  Escapes as in encoding/json; an unpaired surrogate becomes
U+FFFD; a raw control byte is an error.  Fuel: the input length suffices,
every recursive call drops at least one byte. -/
def parseStringBody : Nat → Bytes → Option (Bytes × Bytes)
  | 0, _ => none
  | _, [] => none
  | f + 1, c :: r =>
    if c = 34 then some ([], r)
    else if c = 92 then
      match r with
      | [] => none
      | e :: r2 =>
        if e = 34 ∨ e = 92 ∨ e = 47 then
          (parseStringBody f r2).map (fun p => (e :: p.1, p.2))
        else if e = 98 then (parseStringBody f r2).map (fun p => (8 :: p.1, p.2))
        else if e = 102 then (parseStringBody f r2).map (fun p => (12 :: p.1, p.2))
        else if e = 110 then (parseStringBody f r2).map (fun p => (10 :: p.1, p.2))
        else if e = 114 then (parseStringBody f r2).map (fun p => (13 :: p.1, p.2))
        else if e = 116 then (parseStringBody f r2).map (fun p => (9 :: p.1, p.2))
        else if e = 117 then
          match hex4 r2 with
          | none => none
          | some (u, r3) =>
            if 55296 ≤ u ∧ u ≤ 56319 then
              match r3 with
              | 92 :: 117 :: r4 =>
                match hex4 r4 with
                | some (u2, r5) =>
                  if 56320 ≤ u2 ∧ u2 ≤ 57343 then
                    (parseStringBody f r5).map (fun p =>
                      (utf8Encode (65536 + (u - 55296) * 1024 + (u2 - 56320)) ++ p.1, p.2))
                  else (parseStringBody f r3).map (fun p => (utf8Encode 65533 ++ p.1, p.2))
                | none => (parseStringBody f r3).map (fun p => (utf8Encode 65533 ++ p.1, p.2))
              | _ => (parseStringBody f r3).map (fun p => (utf8Encode 65533 ++ p.1, p.2))
            else if 56320 ≤ u ∧ u ≤ 57343 then
              (parseStringBody f r3).map (fun p => (utf8Encode 65533 ++ p.1, p.2))
            else (parseStringBody f r3).map (fun p => (utf8Encode u ++ p.1, p.2))
        else none
    else if c < 32 then none
    else (parseStringBody f r).map (fun p => (c :: p.1, p.2))

def isDigit (c : Nat) : Bool := 48 ≤ c ∧ c ≤ 57

def takeDigits : Bytes → Bytes × Bytes
  | [] => ([], [])
  | c :: r =>
    if isDigit c then
      match takeDigits r with
      | (ds, rest) => (c :: ds, rest)
    else ([], c :: r)

/-- Integer part of a JSON number: `0` alone, or a nonzero leading digit. -/
def parseIntPart : Bytes → Option (Bytes × Bytes)
  | [] => none
  | 48 :: r => some ([48], r)
  | c :: r =>
    if isDigit c then
      match takeDigits r with
      | (ds, rest) => some (c :: ds, rest)
    else none

def parseFrac : Bytes → Option (Bytes × Bytes)
  | 46 :: r =>
    (match takeDigits r with
     | ([], _) => none
     | (ds, rest) => some (46 :: ds, rest))
  | l => some ([], l)

def parseExp : Bytes → Option (Bytes × Bytes)
  | [] => some ([], [])
  | c :: r =>
    if c = 101 ∨ c = 69 then
      match r with
      | [] => none
      | s :: r2 =>
        if s = 43 ∨ s = 45 then
          match takeDigits r2 with
          | ([], _) => none
          | (ds, rest) => some (c :: s :: ds, rest)
        else
          match takeDigits r with
          | ([], _) => none
          | (ds, rest) => some (c :: ds, rest)
    else some ([], c :: r)

/-- JSON number grammar. -/
def parseNumber (input : Bytes) : Option (Bytes × Bytes) :=
  let core := fun (l : Bytes) =>
    match parseIntPart l with
    | none => none
    | some (i, r1) =>
      match parseFrac r1 with
      | none => none
      | some (fr, r2) =>
        match parseExp r2 with
        | none => none
        | some (ex, r3) => some (i ++ fr ++ ex, r3)
  match input with
  | 45 :: r => (core r).map (fun p => (45 :: p.1, p.2))
  | l => core l

mutual

/-- One JSON value, recursive descent.  Fuel bounds the recursion depth;
`parseJson` passes more than any input can use. -/
def parseVal : Nat → Bytes → Option (JVal × Bytes)
  | 0, _ => none
  | f + 1, input =>
    match skipWs input with
    | [] => none
    | c :: r =>
      if c = 110 then
        match r with
        | 117 :: 108 :: 108 :: r2 => some (.jnull, r2)
        | _ => none
      else if c = 116 then
        match r with
        | 114 :: 117 :: 101 :: r2 => some (.jbool true, r2)
        | _ => none
      else if c = 102 then
        match r with
        | 97 :: 108 :: 115 :: 101 :: r2 => some (.jbool false, r2)
        | _ => none
      else if c = 34 then (parseStringBody (r.length + 1) r).map (fun p => (.jstr p.1, p.2))
      else if c = 91 then
        match skipWs r with
        | 93 :: r2 => some (.jarr [], r2)
        | _ => (parseItems f r).map (fun p => (.jarr p.1, p.2))
      else if c = 123 then
        match skipWs r with
        | 125 :: r2 => some (.jobj [], r2)
        | _ => (parseFields f r).map (fun p => (.jobj p.1, p.2))
      else (parseNumber (c :: r)).map (fun p => (.jnum p.1, p.2))

/-- Comma-separated array items up to `]`. -/
def parseItems : Nat → Bytes → Option (List JVal × Bytes)
  | 0, _ => none
  | f + 1, input =>
    match parseVal f input with
    | none => none
    | some (v, rest) =>
      match skipWs rest with
      | 44 :: r2 => (parseItems f r2).map (fun p => (v :: p.1, p.2))
      | 93 :: r2 => some ([v], r2)
      | _ => none

/-- Comma-separated `"key": value` fields up to the closing brace. -/
def parseFields : Nat → Bytes → Option (List (Bytes × JVal) × Bytes)
  | 0, _ => none
  | f + 1, input =>
    match skipWs input with
    | 34 :: r =>
      match parseStringBody (r.length + 1) r with
      | none => none
      | some (k, rest) =>
        match skipWs rest with
        | 58 :: r2 =>
          match parseVal f r2 with
          | none => none
          | some (v, rest2) =>
            match skipWs rest2 with
            | 44 :: r3 => (parseFields f r3).map (fun p => ((k, v) :: p.1, p.2))
            | 125 :: r3 => some ([(k, v)], r3)
            | _ => none
        | _ => none
    | _ => none

end

/-- A complete JSON document: one value followed only by whitespace, as
`json.Unmarshal` requires.  The fuel is ample: nesting one level deeper
always consumes input bytes. -/
def parseJson (input : Bytes) : Option JVal :=
  match parseVal (3 * input.length + 8) input with
  | some (v, rest) => if skipWs rest = [] then some v else none
  | none => none

/-! ### Decoding into the Go shapes of hmac.go -/

/-- ASCII-case-insensitive byte. -/
def lowerByte (c : Nat) : Nat := if 65 ≤ c ∧ c ≤ 90 then c + 32 else c

/-- encoding/json matches object keys to struct fields exactly or
case-insensitively; with the field sets here that collapses to a fold
comparison. -/
def eqFold (a b : Bytes) : Bool := a.map lowerByte == b.map lowerByte

/-- `github.Repository`, reduced to the one field the program reads
(`full_name`, a `*string`; `none` is the nil pointer).  Its other optional
fields are not modelled: unknown keys are skipped during decoding. -/
structure Repository where
  fullName : Option Bytes
deriving DecidableEq, Repr

/-- `GetFullName`: empty string for a nil pointer. -/
def Repository.getFullName (r : Repository) : Bytes := r.fullName.getD []

/-- `genericEvent`.  The `sender` field (`github.User`) carries no data the
program reads; decoding only type-checks it. -/
structure genericEvent where
  repo : Repository
deriving DecidableEq, Repr

/-- Decode a JSON value into `github.Repository`.  `null` leaves the value
unchanged, a non-object is a type error; later duplicate keys overwrite
earlier ones; `full_name` must be a string or null. -/
def decodeRepository (v : JVal) (cur : Repository) : Option Repository :=
  match v with
  | .jnull => some cur
  | .jobj fs =>
    fs.foldlM (fun r kv =>
      if eqFold kv.1 (asciiBytes "full_name") then
        match kv.2 with
        | .jstr s => some ⟨some s⟩
        | .jnull => some r
        | _ => none
      else some r) cur
  | _ => none

/-- Decode a JSON value into `github.User`: object or null; contents unused. -/
def decodeUser (v : JVal) : Option Unit :=
  match v with
  | .jnull => some ()
  | .jobj _ => some ()
  | _ => none

/-- Decode a JSON value into `genericEvent`: object or null at top level;
fields other than `repository` and `sender` are ignored. -/
def decodeGenericEvent (v : JVal) : Option genericEvent :=
  match v with
  | .jnull => some ⟨⟨none⟩⟩
  | .jobj fs =>
    fs.foldlM (fun ev kv =>
      if eqFold kv.1 (asciiBytes "repository") then
        (decodeRepository kv.2 ev.repo).map (fun r => ⟨r⟩)
      else if eqFold kv.1 (asciiBytes "sender") then
        (decodeUser kv.2).map (fun _ => ev)
      else some ev) ⟨⟨none⟩⟩
  | _ => none

/-- `json.Unmarshal(payload, &event)` for `genericEvent`; `none` is the
error return. -/
def jsonUnmarshalEvent (payload : Bytes) : Option genericEvent :=
  (parseJson payload).bind decodeGenericEvent

/-- `hmacSecret`: a token value and its creation time.  The timestamp is
kept as its JSON text (`none` for the zero time); RFC3339 text validation
by `time.Time` is not modelled. -/
structure hmacSecret where
  value : Bytes
  createdAt : Option Bytes
deriving DecidableEq, Repr

/-- `hmacsForRepo`: all tokens configured for a repo, org or globally. -/
abbrev hmacsForRepo := List hmacSecret

/-- Decode one `hmacSecret`: `value` and `created_at` must be strings or
null; unknown keys are skipped; `null` gives the zero record. -/
def decodeHmacSecret (v : JVal) : Option hmacSecret :=
  match v with
  | .jnull => some ⟨[], none⟩
  | .jobj fs =>
    fs.foldlM (fun s kv =>
      if eqFold kv.1 (asciiBytes "value") then
        match kv.2 with
        | .jstr t => some ⟨t, s.createdAt⟩
        | .jnull => some s
        | _ => none
      else if eqFold kv.1 (asciiBytes "created_at") then
        match kv.2 with
        | .jstr t => some ⟨s.value, some t⟩
        | .jnull => some s
        | _ => none
      else some s) ⟨[], none⟩
  | _ => none

/-- Decode `hmacsForRepo`: an array of records, or null for the zero slice. -/
def decodeHmacsForRepo (v : JVal) : Option hmacsForRepo :=
  match v with
  | .jnull => some []
  | .jarr xs => xs.mapM decodeHmacSecret
  | _ => none

/-- Decode `map[string]hmacsForRepo`, keeping fields in document order
(`goMapGet` applies the Go-map last-wins rule for duplicate keys);
null leaves the pre-initialised empty map. -/
def decodeStore (v : JVal) : Option (List (Bytes × hmacsForRepo)) :=
  match v with
  | .jnull => some []
  | .jobj fs => fs.mapM (fun kv => (decodeHmacsForRepo kv.2).map (fun ts => (kv.1, ts)))
  | _ => none

/-- `sigs.k8s.io/yaml.Unmarshal(t, &repoToTokenMap)`, modelled on the JSON
subset of YAML plus the empty document (YAML null); `none` is the error
return.  YAML-only surface syntax is not modelled. -/
def yamlUnmarshalStore (t : Bytes) : Option (List (Bytes × hmacsForRepo)) :=
  if skipWs t = [] then some [] else (parseJson t).bind decodeStore

/-- Go map lookup on the decoded field list: the last occurrence of a
duplicate key wins, as when encoding/json fills a map. -/
def goMapGet (m : List (Bytes × hmacsForRepo)) (k : Bytes) : Option hmacsForRepo :=
  match m with
  | [] => none
  | kv :: r =>
    match goMapGet r k with
    | some v => some v
    | none => if kv.1 == k then some kv.2 else none

/-! ### The program: hmac.go -/

/-- `strings.Split(repo, "/")[0]`: the bytes before the first slash. -/
def orgOf (repo : Bytes) : Bytes := repo.takeWhile (fun b => b ≠ 47)

/-- extractTokens returns the token values at one level of the tree. -/
def extractTokens (allTokens : hmacsForRepo) : List Bytes :=
  allTokens.map (fun t => t.value)

/-- extractHmacs returns the HMAC tokens at the most specific configured
level: the repo key, else the org key, else the `*` key, else an error; a
store that fails to parse is one legacy single-line token. -/
def extractHmacs (repo : Bytes) (tokenGenerator : Unit → Bytes) :
    Except String (List Bytes) :=
  let t := tokenGenerator ()
  match yamlUnmarshalStore t with
  | none => Except.ok [t]
  | some repoToTokenMap =>
    let orgName := orgOf repo
    match goMapGet repoToTokenMap repo with
    | some val => Except.ok (extractTokens val)
    | none =>
      match goMapGet repoToTokenMap orgName with
      | some val => Except.ok (extractTokens val)
      | none =>
        match goMapGet repoToTokenMap (asciiBytes "*") with
        | some val => Except.ok (extractTokens val)
        | none => Except.error "invalid content in secret file, global token does not exist"

/-- The bytes of the literal `sha1=`. -/
def sha1Tag : Bytes := asciiBytes "sha1="

/-- PayloadSignature returns the signature that matches the payload. -/
def PayloadSignature (payload : Bytes) (key : Bytes) : Bytes :=
  sha1Tag ++ hexEncode (hmacSha1 key payload)

/-- ValidatePayload ensures that the request payload signature matches the
key.  `hmac.Equal` is byte-string equality (computed in constant time by
the Go library). -/
def ValidatePayload (payload : Bytes) (sig : Bytes) (tokenGenerator : Unit → Bytes) : Bool :=
  match jsonUnmarshalEvent payload with
  | none => false
  | some event =>
    if ¬ sha1Tag.isPrefixOf sig then false
    else
      match hexDecode (sig.drop 5) with
      | none => false
      | some sb =>
        match extractHmacs event.repo.getFullName tokenGenerator with
        | .error _ => false
        | .ok hmacs => hmacs.any (fun key => hmacSha1 key payload == sb)

/-- ValidatePayload instrumented with an invocation counter for
`tokenGenerator`: the same control flow, with the second component counting
how many times the generator is called (it is called exactly once at the
top of extractHmacs, and nowhere else). -/
def ValidatePayloadInstr (payload : Bytes) (sig : Bytes) (tokenGenerator : Unit → Bytes) :
    Bool × Nat :=
  match jsonUnmarshalEvent payload with
  | none => (false, 0)
  | some event =>
    if ¬ sha1Tag.isPrefixOf sig then (false, 0)
    else
      match hexDecode (sig.drop 5) with
      | none => (false, 0)
      | some sb =>
        match extractHmacs event.repo.getFullName tokenGenerator with
        | .error _ => (false, 1)
        | .ok hmacs => (hmacs.any (fun key => hmacSha1 key payload == sb), 1)

/-- ASCII uppercasing, for the hex-case property of the signature header. -/
def asciiUpper (c : Nat) : Nat := if 97 ≤ c ∧ c ≤ 122 then c - 32 else c

/-! ### Concrete inputs used in witnesses and counterexamples.
`\x7b` and `\x7d` are the brace characters of the JSON text. -/

/-- The payload `\x7b\x7d`: valid JSON with no repository field at all. -/
def wPayloadEmpty : Bytes := asciiBytes "\x7b\x7d"

/-- A payload naming repository `org/repo`. -/
def wPayloadRepo : Bytes :=
  asciiBytes "\x7b\"repository\": \x7b\"full_name\": \"org/repo\"\x7d\x7d"

/-- A payload naming repository `otherorg/repo`. -/
def wPayloadOther : Bytes :=
  asciiBytes "\x7b\"repository\": \x7b\"full_name\": \"otherorg/repo\"\x7d\x7d"

/-- A legacy secret store: plain bytes, not a hierarchical mapping. -/
def wStoreLegacy : Bytes := asciiBytes "mysecret"

/-- A hierarchical store with repo, org and global scopes. -/
def wStoreThree : Bytes :=
  asciiBytes "\x7b\"org/repo\": [\x7b\"value\": \"A\"\x7d], \"org\": [\x7b\"value\": \"B\"\x7d], \"*\": [\x7b\"value\": \"C\"\x7d]\x7d"

/-- A hierarchical store with one org scope and no global scope. -/
def wStoreNoGlobal : Bytes := asciiBytes "\x7b\"someorg\": [\x7b\"value\": \"A\"\x7d]\x7d"

/-- A hierarchical store whose global scope holds two candidates. -/
def wStoreAB : Bytes :=
  asciiBytes "\x7b\"*\": [\x7b\"value\": \"A\"\x7d, \x7b\"value\": \"B\"\x7d]\x7d"

/-! ### Helper lemmas -/

lemma sha1Tag_isPrefixOf_append (x : Bytes) : sha1Tag.isPrefixOf (sha1Tag ++ x) = true :=
  List.isPrefixOf_iff_prefix.mpr (List.prefix_append _ _)

lemma sha1Tag_append_drop (x : Bytes) : (sha1Tag ++ x).drop 5 = x := by
  have h : (5 : Nat) = sha1Tag.length := rfl
  rw [h, List.drop_left]

lemma hexDigitVal_hexChar : ∀ n, n < 16 → hexDigitVal (hexChar n) = some n := by decide

lemma hexDecode_hexEncode : (l : Bytes) → (∀ b ∈ l, b < 256) → hexDecode (hexEncode l) = some l
  | [], _ => rfl
  | b :: r, h => by
    have hb : b < 256 := h b (List.mem_cons_self b r)
    have h16 : b / 16 < 16 := by omega
    have hm : b % 16 < 16 := Nat.mod_lt _ (by norm_num)
    have hr : hexDecode (hexEncode r) = some r :=
      hexDecode_hexEncode r (fun x hx => h x (List.mem_cons_of_mem _ hx))
    simp only [hexEncode, hexDecode, hexDigitVal_hexChar _ h16, hexDigitVal_hexChar _ hm, hr]
    simp [Nat.div_add_mod]

lemma hexDigitVal_asciiUpper (c : Nat) : hexDigitVal (asciiUpper c) = hexDigitVal c := by
  rcases Nat.lt_or_ge c 123 with h | h
  · exact (by decide : ∀ c, c < 123 → hexDigitVal (asciiUpper c) = hexDigitVal c) c h
  · have hc : asciiUpper c = c := by
      unfold asciiUpper
      rw [if_neg]
      omega
    rw [hc]

lemma hexDecode_map_asciiUpper : (l : Bytes) →
    hexDecode (l.map asciiUpper) = hexDecode l
  | [] => rfl
  | [_] => rfl
  | a :: b :: r => by
    simp only [List.map_cons, hexDecode, hexDigitVal_asciiUpper,
      hexDecode_map_asciiUpper r]

lemma wordBytes_lt (w : Nat) : ∀ b ∈ wordBytes w, b < 256 := by
  intro b hb
  simp only [wordBytes, List.mem_cons, List.not_mem_nil, or_false] at hb
  rcases hb with h | h | h | h <;> subst h <;> exact Nat.mod_lt _ (by norm_num)

lemma sha1_mem_lt (m : Bytes) : ∀ b ∈ sha1 m, b < 256 := by
  intro b hb
  simp only [sha1, List.mem_append] at hb
  rcases hb with (((h | h) | h) | h) | h <;> exact wordBytes_lt _ b h

lemma hmacSha1_mem_lt (k m : Bytes) : ∀ b ∈ hmacSha1 k m, b < 256 := by
  intro b hb
  simp only [hmacSha1] at hb
  exact sha1_mem_lt _ b hb

/-- Shared round-trip core: a signature produced by PayloadSignature with a
candidate the resolver returns is accepted. -/
lemma validate_signed (p : Bytes) (gen : Unit → Bytes) (ev : genericEvent)
    (hs : List Bytes) (s : Bytes)
    (hp : jsonUnmarshalEvent p = some ev)
    (hh : extractHmacs ev.repo.getFullName gen = Except.ok hs)
    (hm : s ∈ hs) :
    ValidatePayload p (PayloadSignature p s) gen = true := by
  have hsig : PayloadSignature p s = sha1Tag ++ hexEncode (hmacSha1 s p) := rfl
  simp only [ValidatePayload, hp, hsig, sha1Tag_isPrefixOf_append, sha1Tag_append_drop,
    hexDecode_hexEncode _ (hmacSha1_mem_lt s p), hh, not_true, if_false]
  exact List.any_eq_true.mpr ⟨s, hm, by simp⟩

/-- The instrumented validator computes the same boolean as the original. -/
lemma ValidatePayloadInstr_fst (p sig : Bytes) (gen : Unit → Bytes) :
    (ValidatePayloadInstr p sig gen).1 = ValidatePayload p sig gen := by
  simp only [ValidatePayloadInstr, ValidatePayload]
  cases jsonUnmarshalEvent p with
  | none => rfl
  | some ev =>
    by_cases hpre : sha1Tag.isPrefixOf sig = true
    · simp only [hpre]
      cases hexDecode (sig.drop 5) with
      | none => simp
      | some sb =>
        simp only [not_true, if_false]
        cases extractHmacs ev.repo.getFullName gen <;> rfl
    · simp [hpre]

/-! ### Claim theorems -/

/-- C1.  Round-trip: whenever the supplier resolves (via extractHmacs, for the
repository named by the payload) to a candidate set containing `s`, a
signature produced by `PayloadSignature p s` is accepted by
`ValidatePayload`. -/
theorem C1_roundTrip (p : Bytes) (gen : Unit → Bytes) (ev : genericEvent)
    (hs : List Bytes) (s : Bytes)
    (hp : jsonUnmarshalEvent p = some ev)
    (hh : extractHmacs ev.repo.getFullName gen = Except.ok hs)
    (hm : s ∈ hs) :
    ValidatePayload p (PayloadSignature p s) gen = true :=
  validate_signed p gen ev hs s hp hh hm

/-- C1 witness: the empty-object payload signed with a legacy secret. -/
theorem C1_roundTrip_witness :
    jsonUnmarshalEvent wPayloadEmpty = some ⟨⟨none⟩⟩ ∧
    extractHmacs (genericEvent.repo ⟨⟨none⟩⟩).getFullName (fun _ => wStoreLegacy) =
      Except.ok [wStoreLegacy] ∧
    wStoreLegacy ∈ [wStoreLegacy] ∧
    ValidatePayload wPayloadEmpty (PayloadSignature wPayloadEmpty wStoreLegacy)
      (fun _ => wStoreLegacy) = true :=
  ⟨rfl, rfl, by simp,
    C1_roundTrip wPayloadEmpty (fun _ => wStoreLegacy) ⟨⟨none⟩⟩ [wStoreLegacy] wStoreLegacy
      rfl rfl (by simp)⟩

/-- C2.  Scope resolution is first-match-wins with no merging: the exact
repo key if present, else the org key (the bytes before the first slash),
else the `*` key. -/
theorem C2_precedence (repo : Bytes) (gen : Unit → Bytes)
    (store : List (Bytes × hmacsForRepo))
    (hparse : yamlUnmarshalStore (gen ()) = some store) :
    (∀ v, goMapGet store repo = some v →
      extractHmacs repo gen = Except.ok (extractTokens v)) ∧
    (goMapGet store repo = none → ∀ v, goMapGet store (orgOf repo) = some v →
      extractHmacs repo gen = Except.ok (extractTokens v)) ∧
    (goMapGet store repo = none → goMapGet store (orgOf repo) = none →
      ∀ v, goMapGet store (asciiBytes "*") = some v →
      extractHmacs repo gen = Except.ok (extractTokens v)) := by
  refine ⟨fun v h1 => ?_, fun h1 v h2 => ?_, fun h1 h2 v h3 => ?_⟩ <;>
    simp only [extractHmacs, hparse, *]

/-- C2 witness: the three-scope store of the spec example, resolved for a
repo-level, an org-level and a global-level request. -/
theorem C2_precedence_witness :
    extractHmacs (asciiBytes "org/repo") (fun _ => wStoreThree) =
      Except.ok [asciiBytes "A"] ∧
    extractHmacs (asciiBytes "org/other") (fun _ => wStoreThree) =
      Except.ok [asciiBytes "B"] ∧
    extractHmacs (asciiBytes "unrelated/repo") (fun _ => wStoreThree) =
      Except.ok [asciiBytes "C"] :=
  ⟨(C2_precedence (asciiBytes "org/repo") (fun _ => wStoreThree)
      [(asciiBytes "org/repo", [⟨asciiBytes "A", none⟩]),
       (asciiBytes "org", [⟨asciiBytes "B", none⟩]),
       (asciiBytes "*", [⟨asciiBytes "C", none⟩])] rfl).1
      [⟨asciiBytes "A", none⟩] rfl,
   (C2_precedence (asciiBytes "org/other") (fun _ => wStoreThree)
      [(asciiBytes "org/repo", [⟨asciiBytes "A", none⟩]),
       (asciiBytes "org", [⟨asciiBytes "B", none⟩]),
       (asciiBytes "*", [⟨asciiBytes "C", none⟩])] rfl).2.1 rfl
      [⟨asciiBytes "B", none⟩] rfl,
   (C2_precedence (asciiBytes "unrelated/repo") (fun _ => wStoreThree)
      [(asciiBytes "org/repo", [⟨asciiBytes "A", none⟩]),
       (asciiBytes "org", [⟨asciiBytes "B", none⟩]),
       (asciiBytes "*", [⟨asciiBytes "C", none⟩])] rfl).2.2 rfl rfl
      [⟨asciiBytes "C", none⟩] rfl⟩

/-- C3.  Legacy fallback: when the store bytes fail to parse as the
hierarchical mapping, the resolver returns the whole byte sequence as the
single candidate for every repository, with no error, and a payload signed
with that literal token validates. -/
theorem C3_legacyFallback (gen : Unit → Bytes)
    (hfail : yamlUnmarshalStore (gen ()) = none) :
    (∀ repo, extractHmacs repo gen = Except.ok [gen ()]) ∧
    (∀ p ev, jsonUnmarshalEvent p = some ev →
      ValidatePayload p (PayloadSignature p (gen ())) gen = true) := by
  have h1 : ∀ repo, extractHmacs repo gen = Except.ok [gen ()] := by
    intro repo
    simp only [extractHmacs, hfail]
  exact ⟨h1, fun p ev hp => validate_signed p gen ev [gen ()] (gen ()) hp (h1 _) (by simp)⟩

/-- C3 witness: the plain bytes `mysecret` as store, with an empty-object
payload signed with that literal. -/
theorem C3_legacyFallback_witness :
    extractHmacs (asciiBytes "any/repo") (fun _ => wStoreLegacy) =
      Except.ok [wStoreLegacy] ∧
    ValidatePayload wPayloadEmpty (PayloadSignature wPayloadEmpty wStoreLegacy)
      (fun _ => wStoreLegacy) = true :=
  ⟨(C3_legacyFallback (fun _ => wStoreLegacy) rfl).1 (asciiBytes "any/repo"),
   (C3_legacyFallback (fun _ => wStoreLegacy) rfl).2 wPayloadEmpty ⟨⟨none⟩⟩ rfl⟩

/-- C4.  Resolution failure: a store that parses but has no repo, org or
global key makes the resolver fail with an error, and every validation for
such a repository returns false whatever the signature. -/
theorem C4_resolutionFailure (repo : Bytes) (gen : Unit → Bytes)
    (store : List (Bytes × hmacsForRepo))
    (hparse : yamlUnmarshalStore (gen ()) = some store)
    (h1 : goMapGet store repo = none)
    (h2 : goMapGet store (orgOf repo) = none)
    (h3 : goMapGet store (asciiBytes "*") = none) :
    extractHmacs repo gen =
      Except.error "invalid content in secret file, global token does not exist" ∧
    (∀ p sig ev, jsonUnmarshalEvent p = some ev → ev.repo.getFullName = repo →
      ValidatePayload p sig gen = false) := by
  have he : extractHmacs repo gen =
      Except.error "invalid content in secret file, global token does not exist" := by
    simp only [extractHmacs, hparse, h1, h2, h3]
  refine ⟨he, fun p sig ev hp hr => ?_⟩
  simp only [ValidatePayload, hp, hr, he]
  by_cases hpre : sha1Tag.isPrefixOf sig = true <;>
    simp only [hpre] <;>
    cases hexDecode (sig.drop 5) <;> simp

/-- C4 witness: the org-only store with a request from another org, and a
payload for that repository with an arbitrary signature. -/
theorem C4_resolutionFailure_witness :
    extractHmacs (asciiBytes "otherorg/repo") (fun _ => wStoreNoGlobal) =
      Except.error "invalid content in secret file, global token does not exist" ∧
    ValidatePayload wPayloadOther (asciiBytes "sha1=ff") (fun _ => wStoreNoGlobal) = false :=
  ⟨(C4_resolutionFailure (asciiBytes "otherorg/repo") (fun _ => wStoreNoGlobal)
      [(asciiBytes "someorg", [⟨asciiBytes "A", none⟩])] rfl rfl rfl rfl).1,
   (C4_resolutionFailure (asciiBytes "otherorg/repo") (fun _ => wStoreNoGlobal)
      [(asciiBytes "someorg", [⟨asciiBytes "A", none⟩])] rfl rfl rfl rfl).2
      wPayloadOther (asciiBytes "sha1=ff") ⟨⟨some (asciiBytes "otherorg/repo")⟩⟩ rfl rfl⟩

/-- C5 counterexample: the payload `\x7b\x7d` is valid JSON with no
`repository.full_name`, yet ValidatePayload returns true for it under a
legacy store and a matching signature — refuting that validation returns
false for every valid-JSON payload missing the repository fields,
regardless of signature and store. -/
theorem C5_missingFields_cex :
    jsonUnmarshalEvent wPayloadEmpty = some ⟨⟨none⟩⟩ ∧
    ValidatePayload wPayloadEmpty (PayloadSignature wPayloadEmpty wStoreLegacy)
      (fun _ => wStoreLegacy) = true :=
  ⟨rfl, validate_signed wPayloadEmpty (fun _ => wStoreLegacy) ⟨⟨none⟩⟩
    [wStoreLegacy] wStoreLegacy rfl rfl (by simp)⟩

/-- C5 (amended).  A byte sequence on which `json.Unmarshal` fails — not
valid JSON, or its value does not fit `genericEvent` — makes ValidatePayload
return false (the error is swallowed; the result type is Bool).  A payload
that unmarshals with the repository fields merely absent proceeds with the
empty repository name instead. -/
theorem C5_malformedPayload (p sig : Bytes) (gen : Unit → Bytes)
    (h : jsonUnmarshalEvent p = none) : ValidatePayload p sig gen = false := by
  simp only [ValidatePayload, h]

/-- C5 witness: a non-JSON payload. -/
theorem C5_malformedPayload_witness :
    ValidatePayload (asciiBytes "not json") (asciiBytes "sha1=ff")
      (fun _ => wStoreLegacy) = false :=
  C5_malformedPayload (asciiBytes "not json") (asciiBytes "sha1=ff")
    (fun _ => wStoreLegacy) rfl

/-- C6.  Prefix enforcement: a header that does not begin with `sha1=`
always fails, and so does one whose remainder after the first five bytes is
not valid hex. -/
theorem C6_headerFormat (p sig : Bytes) (gen : Unit → Bytes) :
    (sha1Tag.isPrefixOf sig = false → ValidatePayload p sig gen = false) ∧
    (hexDecode (sig.drop 5) = none → ValidatePayload p sig gen = false) := by
  constructor <;> intro h <;> simp only [ValidatePayload] <;>
    cases hp : jsonUnmarshalEvent p <;>
    by_cases hpre : sha1Tag.isPrefixOf sig = true <;>
    simp_all

/-- C6 witness: a `sha256=` header and a `sha1=` header with non-hex rest,
on a well-formed payload with a correct secret in store. -/
theorem C6_headerFormat_witness :
    ValidatePayload wPayloadEmpty (asciiBytes "sha256=aabb")
      (fun _ => wStoreLegacy) = false ∧
    ValidatePayload wPayloadEmpty (asciiBytes "sha1=zz")
      (fun _ => wStoreLegacy) = false :=
  ⟨(C6_headerFormat wPayloadEmpty (asciiBytes "sha256=aabb") (fun _ => wStoreLegacy)).1 rfl,
   (C6_headerFormat wPayloadEmpty (asciiBytes "sha1=zz") (fun _ => wStoreLegacy)).2 rfl⟩

/-- C7 counterexample: on the empty payload (malformed JSON) the generator
is never invoked — the claim that every call invokes it exactly once fails. -/
theorem C7_invocation_cex : (ValidatePayloadInstr [] [] (fun _ => [])).2 ≠ 1 := by decide

/-- C7 (amended).  The generator is invoked at most once per call, and
exactly once precisely when validation reaches secret resolution: the
payload unmarshals, the header has the `sha1=` tag, and its remainder
hex-decodes.  On the early-return paths it is not invoked at all. -/
theorem C7_invocationCount (p sig : Bytes) (gen : Unit → Bytes) :
    (ValidatePayloadInstr p sig gen).2 ≤ 1 ∧
    ((ValidatePayloadInstr p sig gen).2 = 1 ↔
      (jsonUnmarshalEvent p).isSome = true ∧ sha1Tag.isPrefixOf sig = true ∧
      (hexDecode (sig.drop 5)).isSome = true) := by
  simp only [ValidatePayloadInstr]
  cases hp : jsonUnmarshalEvent p with
  | none => simp
  | some ev =>
    by_cases hpre : sha1Tag.isPrefixOf sig = true
    · simp only [hpre]
      cases hx : hexDecode (sig.drop 5) with
      | none => simp
      | some sb =>
        simp only [not_true, if_false]
        cases extractHmacs ev.repo.getFullName gen <;> simp
    · simp [hpre]

/-- C7 witness: a call that reaches secret resolution invokes the generator
exactly once. -/
theorem C7_invocationCount_witness :
    (ValidatePayloadInstr wPayloadEmpty (asciiBytes "sha1=ff")
      (fun _ => wStoreLegacy)).2 = 1 :=
  (C7_invocationCount wPayloadEmpty (asciiBytes "sha1=ff")
      (fun _ => wStoreLegacy)).2.mpr ⟨rfl, rfl, rfl⟩

/-- C8.  Candidates of the matched scope are its token values in original
order, and validation accepts exactly when HMAC-SHA1 under some candidate
equals the decoded signature. -/
theorem C8_multiCandidate :
    (∀ ts : hmacsForRepo, extractTokens ts = ts.map (fun t => t.value)) ∧
    (∀ (p sig sb : Bytes) (gen : Unit → Bytes) (ev : genericEvent) (hs : List Bytes),
      jsonUnmarshalEvent p = some ev →
      sha1Tag.isPrefixOf sig = true →
      hexDecode (sig.drop 5) = some sb →
      extractHmacs ev.repo.getFullName gen = Except.ok hs →
      ValidatePayload p sig gen = hs.any (fun key => hmacSha1 key p == sb)) := by
  refine ⟨fun ts => rfl, fun p sig sb gen ev hs hp hpre hx hh => ?_⟩
  simp only [ValidatePayload, hp, hpre, hx, hh, not_true, if_false]

/-- C8 witness: the two-candidate global store, with a payload signed with
the second candidate `B`; the right-hand side then holds of the candidate
list `[A, B]` in order. -/
theorem C8_multiCandidate_witness :
    ValidatePayload wPayloadRepo (PayloadSignature wPayloadRepo (asciiBytes "B"))
      (fun _ => wStoreAB) =
      ([asciiBytes "A", asciiBytes "B"].any
        (fun key => hmacSha1 key wPayloadRepo == hmacSha1 (asciiBytes "B") wPayloadRepo)) :=
  C8_multiCandidate.2 wPayloadRepo
    (PayloadSignature wPayloadRepo (asciiBytes "B"))
    (hmacSha1 (asciiBytes "B") wPayloadRepo)
    (fun _ => wStoreAB) ⟨⟨some (asciiBytes "org/repo")⟩⟩
    [asciiBytes "A", asciiBytes "B"] rfl
    (sha1Tag_isPrefixOf_append (hexEncode (hmacSha1 (asciiBytes "B") wPayloadRepo)))
    (by
      rw [show (PayloadSignature wPayloadRepo (asciiBytes "B")).drop 5 =
            hexEncode (hmacSha1 (asciiBytes "B") wPayloadRepo) from
          sha1Tag_append_drop (hexEncode (hmacSha1 (asciiBytes "B") wPayloadRepo))]
      exact hexDecode_hexEncode _ (hmacSha1_mem_lt (asciiBytes "B") wPayloadRepo))
    rfl

/-- C10.  Hex case-insensitivity: uppercasing the part of the signature
header after `sha1=` never changes the validation result. -/
theorem C10_hexCase (p d : Bytes) (gen : Unit → Bytes) :
    ValidatePayload p (sha1Tag ++ d) gen =
      ValidatePayload p (sha1Tag ++ d.map asciiUpper) gen := by
  cases hp : jsonUnmarshalEvent p <;>
    simp only [ValidatePayload, hp, sha1Tag_isPrefixOf_append, sha1Tag_append_drop,
      hexDecode_map_asciiUpper]

end RobotGithub
